import Mathlib

/-!
Verification of the pyxapiand client library.

The development shallowly embeds the parts of the code that the checked
properties are about:

* `src/xapiand/utils.py` — the Xapian-compatible variable-length integer
  and length-prefixed string codec (`serialise_length`,
  `unserialise_length`, `serialise_string`, `unserialise_string`).
  A Python `str` is modelled as a list of natural numbers, one per
  character code point, since `ord`/`chr` in the source operate on
  arbitrary code points.

* `src/xapiand/__init__.py` — the request dispatcher `_send_request`
  (404 handling, `_schema` rewriting, response normalization), the URL
  builder `_build_url`, and the offset handling of `search`.

* The scalar codec for dates, times and fixed-point decimals lives in
  the external `dfw.core.utils` package and is not part of the sources;
  it is modelled from the specification text.

Python exceptions are modelled with the `PyErr` type and fallible code
returns `Except PyErr`.
-/

/-- The kinds of Python exception the embedded code can raise. -/
inductive PyErr where
  | valueError (msg : String)
  | keyError (key : String)
  | attributeError (msg : String)
  | typeError (msg : String)
deriving DecidableEq, Repr

/-- A Python `str` as a list of character code points. -/
abbrev PyStr := List Nat

/-- The continuation loop of `serialise_length` (utils.py lines 63-69):
emit 7 bits per byte, low bits first; every byte except the last has its
high bit clear, the last byte has its high bit set. -/
def serialiseLoop (n : Nat) : List Nat :=
  let b := n &&& 0x7f
  if n >>> 7 = 0 then [b ||| 0x80] else b :: serialiseLoop (n >>> 7)
termination_by n
decreasing_by
  simp only [Nat.shiftRight_eq_div_pow] at *
  exact Nat.div_lt_self (by omega) (by norm_num)

/-- `serialise_length` (utils.py lines 39-70): a value below 255 is one
byte; otherwise the byte `0xff` followed by `n - 255` in the 7-bit
continuation format. -/
def serialise_length (n : Nat) : List Nat :=
  if n < 255 then [n] else 255 :: serialiseLoop (n - 255)

/-- The accumulation loop of `unserialise_length` (utils.py lines
101-108): or each byte's low 7 bits into the length at the current
shift; a byte with its high bit set terminates. Returns `none` when the
bytes run out before a terminating byte appears (the `for ... else`
branch of the source). -/
def decodeLoop : List Nat → Nat → Nat → Option (Nat × List Nat)
  | [], _, _ => none
  | b :: rest, acc, shift =>
    let acc2 := acc ||| ((b &&& 0x7f) <<< shift)
    if b &&& 0x80 ≠ 0 then some (acc2, rest) else decodeLoop rest acc2 (shift + 7)

/-- `unserialise_length` (utils.py lines 73-115). The boolean argument
is `check_remaining`: when true, a decoded length larger than the
remaining data raises `ValueError`. -/
def unserialise_length (data : PyStr) (check_remaining : Bool) :
    Except PyErr (Nat × PyStr) :=
  match data with
  | [] => .error (.valueError "Bad encoded length: no data")
  | b :: rest =>
    let step : Except PyErr (Nat × PyStr) :=
      if b = 0xff then
        match decodeLoop rest 0 0 with
        | none => .error (.valueError "Bad encoded length: insufficient data")
        | some (l, rem) => .ok (l + 255, rem)
      else
        .ok (b, rest)
    match step with
    | .error e => .error e
    | .ok (l, rem) =>
      if check_remaining = true ∧ rem.length < l then
        .error (.valueError "Bad encoded length: length greater than data")
      else
        .ok (l, rem)

/-- `serialise_string` (utils.py lines 118-130): the encoded length of
the string followed by the string itself. -/
def serialise_string (s : PyStr) : PyStr :=
  serialise_length s.length ++ s

/-- `unserialise_string` (utils.py lines 133-150): decode a length in
strict mode, then split off that many characters. -/
def unserialise_string (data : PyStr) : Except PyErr (PyStr × PyStr) :=
  match unserialise_length data true with
  | .error e => .error e
  | .ok (l, rest) => .ok (rest.take l, rest.drop l)

lemma and_127_eq_mod (b : Nat) : b &&& 0x7f = b % 128 := by
  have h := Nat.and_pow_two_sub_one_eq_mod b 7
  norm_num at h
  exact h

lemma and_128_ne_zero_iff (b : Nat) : b &&& 0x80 ≠ 0 ↔ b / 128 % 2 = 1 := by
  have h := Nat.and_two_pow b 7
  rw [Nat.testBit_to_div_mod] at h
  norm_num at h
  by_cases hb : b / 128 % 2 = 1 <;> simp [hb] at h ⊢ <;> omega

lemma or_shiftLeft_eq_add {a : Nat} (b : Nat) {i : Nat} (h : a < 2 ^ i) :
    a ||| (b <<< i) = 2 ^ i * b + a := by
  rw [Nat.shiftLeft_eq, Nat.mul_comm b, Nat.or_comm, ← Nat.mul_add_lt_is_or h]

lemma decodeLoop_serialiseLoop (n : Nat) :
    ∀ (tail : List Nat) (acc shift : Nat), acc < 2 ^ shift →
      decodeLoop (serialiseLoop n ++ tail) acc shift =
        some (2 ^ shift * n + acc, tail) := by
  induction n using Nat.strong_induction_on with
  | _ n ih =>
    intro tail acc shift hacc
    rw [serialiseLoop]
    simp only [Nat.shiftRight_eq_div_pow]
    norm_num
    by_cases h0 : n / 128 = 0
    · have hn : n < 128 := by omega
      have hb : n &&& 0x7f = n := by rw [and_127_eq_mod]; omega
      have hor : n ||| 0x80 = 128 + n := by
        have he := or_shiftLeft_eq_add (a := n) 1 (i := 7) (by omega)
        rw [show (1 : Nat) <<< 7 = 128 from rfl] at he
        norm_num at he
        exact he
      simp only [h0, if_pos rfl, hb, List.cons_append, List.nil_append, decodeLoop]
      have h1 : (n ||| 0x80) &&& 0x7f = n := by
        rw [hor, and_127_eq_mod]; omega
      have h2 : (n ||| 0x80) &&& 0x80 ≠ 0 := by
        rw [hor, and_128_ne_zero_iff]; omega
      rw [h1, if_pos h2, or_shiftLeft_eq_add n hacc]
      simp
    · have hn : 128 ≤ n := by omega
      have hb : n &&& 0x7f = n % 128 := and_127_eq_mod n
      simp only [h0, if_neg h0, hb, List.cons_append, decodeLoop]
      have h1 : n % 128 &&& 0x7f = n % 128 := by
        rw [and_127_eq_mod]; omega
      have h2 : ¬ (n % 128 &&& 0x80 ≠ 0) := by
        rw [and_128_ne_zero_iff]; omega
      rw [h1, if_neg h2, or_shiftLeft_eq_add (n % 128) hacc]
      simp only [List.append_eq]
      have hlt : n / 128 < n := Nat.div_lt_self (by omega) (by norm_num)
      have hacc2 : 2 ^ shift * (n % 128) + acc < 2 ^ (shift + 7) := by
        have hx : 2 ^ (shift + 7) = 2 ^ shift * 128 := by
          rw [pow_add]; norm_num
        have hr : n % 128 < 128 := Nat.mod_lt _ (by norm_num)
        nlinarith [hacc, hr]
      rw [ih (n / 128) hlt tail _ (shift + 7) hacc2]
      congr 2
      have hx : 2 ^ (shift + 7) = 2 ^ shift * 128 := by
        rw [pow_add]; norm_num
      rw [hx]
      conv_rhs => rw [← Nat.div_add_mod n 128]
      ring

lemma unserialise_serialise_append (n : Nat) (rest : PyStr) (check : Bool) :
    unserialise_length (serialise_length n ++ rest) check =
      if check = true ∧ rest.length < n then
        .error (.valueError "Bad encoded length: length greater than data")
      else
        .ok (n, rest) := by
  rw [serialise_length]
  by_cases h : n < 255
  · have hne : n ≠ 0xff := by omega
    simp [h, unserialise_length, hne]
  · have h255 : ¬ n < 255 := h
    have hd := decodeLoop_serialiseLoop (n - 255) rest 0 0 (by norm_num)
    norm_num at hd
    have hsum : n - 255 + 255 = n := by omega
    simp [h255, unserialise_length, hd, hsum]

/-- C3: for every non-negative integer n, decoding the encoding of n
with `check_remaining` at its default (false) yields exactly the pair
(n, "") — the decoded length equals n and the whole encoding is
consumed. -/
theorem claim3_length_roundtrip (n : Nat) :
    unserialise_length (serialise_length n) false = .ok (n, []) := by
  have h := unserialise_serialise_append n [] false
  simpa using h

/-- C4: for every string s and every trailing sequence tail, decoding
`serialise_string s ++ tail` returns exactly (s, tail). -/
theorem claim4_string_roundtrip (s tail : PyStr) :
    unserialise_string (serialise_string s ++ tail) = .ok (s, tail) := by
  rw [unserialise_string, serialise_string, List.append_assoc,
    unserialise_serialise_append s.length (s ++ tail) true]
  have hlen : ¬ ((s ++ tail).length < s.length) := by
    simp [List.length_append]
  simp [hlen, List.take_left, List.drop_left]

lemma decodeLoop_eq_none_iff (rest : List Nat) :
    ∀ acc shift, decodeLoop rest acc shift = none ↔ ∀ b ∈ rest, b &&& 0x80 = 0 := by
  induction rest with
  | nil => simp [decodeLoop]
  | cons b rest ih =>
    intro acc shift
    simp only [decodeLoop]
    by_cases hb : b &&& 0x80 ≠ 0
    · simp [hb]
    · push_neg at hb
      simp [hb, ih]

lemma unserialise_false_cons_ne (b : Nat) (rest : List Nat) (hb : b ≠ 0xff) :
    unserialise_length (b :: rest) false = .ok (b, rest) := by
  simp [unserialise_length, hb]

lemma unserialise_false_cons_255 (rest : List Nat) (l : Nat) (rem : List Nat)
    (hD : decodeLoop rest 0 0 = some (l, rem)) :
    unserialise_length (0xff :: rest) false = .ok (l + 255, rem) := by
  simp [unserialise_length, hD]

/-- C9: `unserialise_length` raises exactly when the input is empty, or
the first byte is 0xFF and no later byte has its high bit set, or strict
mode is on and the decoded length exceeds the remaining byte count. -/
theorem claim9_unserialise_length_errors (data : PyStr) (check : Bool) :
    (∃ e, unserialise_length data check = .error e) ↔
      (data = [] ∨
        (∃ rest, data = 0xff :: rest ∧ ∀ b ∈ rest, b &&& 0x80 = 0) ∨
        (check = true ∧ ∃ n rem, unserialise_length data false = .ok (n, rem) ∧
          rem.length < n)) := by
  match data with
  | [] =>
    simp [unserialise_length]
  | b :: rest =>
    by_cases hb : b = 0xff
    · subst hb
      match hD : decodeLoop rest 0 0 with
      | none =>
        have hall := (decodeLoop_eq_none_iff rest 0 0).mp hD
        simp only [unserialise_length, hD, reduceIte]
        constructor
        · intro _
          exact Or.inr (Or.inl ⟨rest, rfl, hall⟩)
        · intro _
          exact ⟨.valueError "Bad encoded length: insufficient data", rfl⟩
      | some (l, rem) =>
        have hall : ¬ (∀ b ∈ rest, b &&& 0x80 = 0) := by
          intro hc
          rw [(decodeLoop_eq_none_iff rest 0 0).mpr hc] at hD
          cases hD
        have hfalse := unserialise_false_cons_255 rest l rem hD
        simp only [unserialise_length, hD, reduceIte]
        by_cases hchk : check = true ∧ rem.length < l + 255
        · rw [if_pos hchk]
          constructor
          · intro _
            exact Or.inr (Or.inr ⟨hchk.1, l + 255, rem, by simp, hchk.2⟩)
          · intro _
            exact ⟨.valueError "Bad encoded length: length greater than data", rfl⟩
        · rw [if_neg hchk]
          constructor
          · rintro ⟨e, he⟩
            cases he
          · rintro (h | ⟨r, hr, hc⟩ | ⟨hck, n, rm, hok, hlt⟩)
            · cases h
            · rw [List.cons.injEq] at hr
              exact absurd (hr.2 ▸ hc) hall
            · simp only [Bool.false_eq_true, false_and, if_neg, ite_false,
                Except.ok.injEq, Prod.mk.injEq] at hok
              obtain ⟨h1, h2⟩ := hok
              subst h1
              subst h2
              exact absurd ⟨hck, hlt⟩ hchk
    · have hfalse := unserialise_false_cons_ne b rest hb
      simp only [unserialise_length, if_neg hb]
      by_cases hchk : check = true ∧ rest.length < b
      · rw [if_pos hchk]
        constructor
        · intro _
          exact Or.inr (Or.inr ⟨hchk.1, b, rest, by simp, hchk.2⟩)
        · intro _
          exact ⟨.valueError "Bad encoded length: length greater than data", rfl⟩
      · rw [if_neg hchk]
        constructor
        · rintro ⟨e, he⟩
          cases he
        · rintro (h | ⟨r, hr, hc⟩ | ⟨hck, n, rm, hok, hlt⟩)
          · cases h
          · rw [List.cons.injEq] at hr
            exact absurd hr.1 hb
          · simp only [Bool.false_eq_true, false_and, if_neg, ite_false,
              Except.ok.injEq, Prod.mk.injEq] at hok
            obtain ⟨h1, h2⟩ := hok
            subst h1
            subst h2
            exact absurd ⟨hck, hlt⟩ hchk

/-- A Python value as seen by the client: JSON/msgpack primitives,
containers, and the richer scalar types carried by the codec
(fixed-point decimals, dates, times, datetimes). A float is modelled as
the exact rational it denotes; a time-zone as a minute offset. Dicts are
association lists in insertion order, matching `DictObject`
(collections.py), which is an insertion-ordered `dict`. -/
inductive PyValue where
  | vNone
  | vBool (b : Bool)
  | vInt (n : Int)
  | vFloat (q : ℚ)
  | vDecimal (q : ℚ)
  | vDate (y m d : Nat)
  | vTime (h mi s us : Nat) (tz : Option Int)
  | vDateTime (y mo d h mi s us : Nat) (tz : Option Int)
  | vStr (s : String)
  | vList (xs : List PyValue)
  | vDict (xs : List (String × PyValue))

/-- A Python dict with string keys, in insertion order. -/
abbrev Alist := List (String × PyValue)

/-- `d[key]` lookup returning `none` when absent (first matching key). -/
def lookupKey : Alist → String → Option PyValue
  | [], _ => none
  | (k, v) :: rest, key => if k = key then some v else lookupKey rest key

/-- Removal of a key from a dict (used to model `dict.pop`). -/
def removeKey : Alist → String → Alist
  | [], _ => []
  | (k, v) :: rest, key => if k = key then rest else (k, v) :: removeKey rest key

/-- `d[key] = v`: update in place when the key exists, else append,
as Python dicts preserve insertion order. -/
def setKey : Alist → String → PyValue → Alist
  | [], key, v => [(key, v)]
  | (k, w) :: rest, key, v =>
    if k = key then (k, v) :: rest else (k, w) :: setKey rest key v

/-- Python truthiness of a value (`if results:` and friends). -/
def truthy : PyValue → Bool
  | .vNone => false
  | .vBool b => b
  | .vInt n => n != 0
  | .vFloat q => q != 0
  | .vDecimal q => q != 0
  | .vStr s => s != ""
  | .vList xs => !xs.isEmpty
  | .vDict xs => !xs.isEmpty
  | _ => true

/-- Outcome of the status handling in `_send_request` (__init__.py lines
380-390): a 404 for patch/merge/delete/get raises `NotFoundError` when
no default was supplied (the `NA` sentinel, modelled by `none`) and
returns the default otherwise; `raise_for_status` raises
`httpx.HTTPStatusError` for any other 4xx/5xx status. -/
inductive ReqOutcome where
  | notFoundErr
  | returned (v : PyValue)
  | statusErr (code : Nat)
  | proceed

/-- Status-code handling of `_send_request` (__init__.py lines 380-390).
`default = none` models the `NA` sentinel ("no default supplied");
`some v` models a supplied default, including `some .vNone` for
`default=None`. -/
def handle404 (status : Nat) (action : String) (default : Option PyValue) :
    ReqOutcome :=
  if status = 404 ∧ action ∈ ["patch", "merge", "delete", "get"] then
    match default with
    | none => .notFoundErr
    | some v => .returned v
  else if 400 ≤ status ∧ status ≤ 599 then .statusErr status
  else .proceed

/-- Python's `s.strip("/")`: slashes removed from both ends. -/
def stripSlashes (s : String) : String :=
  ⟨((s.data.dropWhile (· = '/')).reverse.dropWhile (· = '/')).reverse⟩

/-- The prefix stored by `Xapiand.__init__` (__init__.py line 215):
`f"{p}/"` when the argument is truthy, else `""`. -/
def storedPfx (p : String) : String :=
  if p = "" then "" else p ++ "/"

/-- Python's `str.partition(":")` limited to what `_build_url` uses:
the part before the first colon and the part after it. -/
def partColon (s : String) : String × String :=
  (⟨s.data.takeWhile (· ≠ ':')⟩, ⟨(s.data.dropWhile (· ≠ ':')).tail⟩)

/-- `_build_url` (__init__.py lines 247-268). `pfx` is the stored
client prefix (already slash-terminated when non-empty); `index` is the
token list after the comma split / iterable overload; the empty string
models an absent host, port, nodename or id (both `None` and `''` are
falsy). Deduplication via `set(index)` has unspecified iteration order
in Python; it is modelled as first-occurrence order. -/
def buildUrl (pfx selfHost selfPort action : String) (index : List String)
    (host0 port0 nodename id : String) : String :=
  let hp : String × String :=
    if host0.data.contains ':' then partColon host0 else (host0, port0)
  let host1 := if hp.1 = "" then selfHost else hp.1
  let port1 := if hp.2 = "" then selfPort else hp.2
  let indexes := (index.eraseDups).map (fun i => pfx ++ stripSlashes i)
  let joined := String.intercalate "," (indexes.map (fun i => i ++ "/" ++ id))
  let node := if nodename = "" then "" else "@" ++ nodename
  let cmd := if action = "search" ∨ action = "stats" then ":" ++ action else ""
  "http://" ++ host1 ++ ":" ++ port1 ++ "/" ++ joined ++ node ++ cmd

/-- True when a character is an ASCII decimal digit. -/
def isDigitCh (c : Char) : Bool :=
  48 ≤ c.toNat && c.toNat ≤ 57

/-- Value of an ASCII digit character. -/
def dval (c : Char) : Nat :=
  c.toNat - 48

/-- Left-to-right decimal value of a digit list. -/
def digitsVal (ds : List Char) : Nat :=
  ds.foldl (fun acc c => 10 * acc + dval c) 0

/-- Python's `int(str)` on the strings the offset handling can receive:
an optional sign followed by one or more decimal digits; anything else
raises `ValueError` (modelled as `none`). -/
def pyIntOfStr (s : String) : Option Int :=
  let core : List Char → Option Int := fun cs =>
    if cs ≠ [] ∧ cs.all isDigitCh then some (digitsVal cs : Int) else none
  match s.data with
  | '-' :: rest => (core rest).map (fun n => -n)
  | '+' :: rest => core rest
  | cs => core cs

/-- The `offset` argument of `search` is either already an int or a
string to be parsed. -/
inductive OffsetArg where
  | int (n : Int)
  | str (s : String)

/-- `int(offset)` as called by `search` (__init__.py line 472). -/
def pyIntOfOffset : OffsetArg → Option Int
  | .int n => some n
  | .str s => pyIntOfStr s

/-- The outgoing `offset` query parameter computed by `search`
(__init__.py lines 470-484) for a non-None offset argument: parse
failure resets to 0, and a parsed value above `OFFSET_LIMIT` (100000)
resets to 0. -/
def searchOffset (off : OffsetArg) : Int :=
  match pyIntOfOffset off with
  | none => 0
  | some v => if v > 100000 then 0 else v

/-- The `_schema` rewrite `_send_request` applies to a dict body before
serialization (__init__.py lines 346-355): a string schema is replaced
by the stored prefix followed by the slash-stripped schema; a dict
schema has its `_foreign` entry rewritten the same way; a body without
`_schema` is left alone. -/
def rewriteSchema (pfx : String) (body : Alist) : Except PyErr Alist :=
  match lookupKey body "_schema" with
  | none => .ok body
  | some schema =>
    match schema with
    | .vDict sd =>
      match lookupKey sd "_foreign" with
      | some (.vStr f) =>
        .ok (setKey body "_schema"
          (.vDict (setKey sd "_foreign" (.vStr (pfx ++ stripSlashes f)))))
      | some _ => .error (.attributeError "strip")
      | none => .error (.keyError "_foreign")
    | .vStr s => .ok (setKey body "_schema" (.vStr (pfx ++ stripSlashes s)))
    | _ => .error (.attributeError "strip")

/-- Response normalization of `_send_request` (__init__.py lines
403-417): pop `#query` and `#aggregations` (empty dict defaults); when
the query envelope is truthy, rename `#hits`/`#total_count`/
`#matches_estimated` to `hits`/`count`/`total` via `dict.pop` (which
raises `KeyError` on a missing key); attach a truthy aggregations value
under `aggregations`; return the assembled result if truthy, else the
remaining content. -/
def normalizeResponse (content : Alist) : Except PyErr PyValue :=
  let res0 := (lookupKey content "#query").getD (.vDict [])
  let content1 := removeKey content "#query"
  let agg := (lookupKey content1 "#aggregations").getD (.vDict [])
  let content2 := removeKey content1 "#aggregations"
  let step1 : Except PyErr PyValue :=
    if truthy res0 then
      match res0 with
      | .vDict q =>
        match lookupKey q "#hits" with
        | none => .error (.keyError "#hits")
        | some h =>
          let q1 := setKey (removeKey q "#hits") "hits" h
          match lookupKey q1 "#total_count" with
          | none => .error (.keyError "#total_count")
          | some c =>
            let q2 := setKey (removeKey q1 "#total_count") "count" c
            match lookupKey q2 "#matches_estimated" with
            | none => .error (.keyError "#matches_estimated")
            | some t =>
              .ok (.vDict (setKey (removeKey q2 "#matches_estimated") "total" t))
      | _ => .error (.attributeError "pop")
    else
      .ok res0
  match step1 with
  | .error e => .error e
  | .ok results =>
    let step2 : Except PyErr PyValue :=
      if truthy agg then
        match results with
        | .vDict r => .ok (.vDict (setKey r "aggregations" agg))
        | _ => .error (.typeError "item assignment")
      else
        .ok results
    match step2 with
    | .error e => .error e
    | .ok results2 =>
      if truthy results2 then .ok results2 else .ok (.vDict content2)

lemma lookupKey_setKey_self (m : Alist) (k : String) (v : PyValue) :
    lookupKey (setKey m k v) k = some v := by
  induction m with
  | nil => simp [setKey, lookupKey]
  | cons kv rest ih =>
    obtain ⟨k0, v0⟩ := kv
    by_cases h : k0 = k <;> simp [setKey, lookupKey, h, ih]

lemma lookupKey_setKey_ne (m : Alist) (k k2 : String) (v : PyValue)
    (h : k ≠ k2) : lookupKey (setKey m k v) k2 = lookupKey m k2 := by
  induction m with
  | nil => simp [setKey, lookupKey, h]
  | cons kv rest ih =>
    obtain ⟨k0, v0⟩ := kv
    by_cases h0 : k0 = k
    · subst h0
      simp [setKey, lookupKey, h]
    · by_cases h2 : k0 = k2
      · subst h2
        simp [setKey, lookupKey, h0, ih]
      · simp [setKey, lookupKey, h0, h2, ih]

lemma lookupKey_removeKey_ne (m : Alist) (k k2 : String) (h : k ≠ k2) :
    lookupKey (removeKey m k) k2 = lookupKey m k2 := by
  induction m with
  | nil => simp [removeKey]
  | cons kv rest ih =>
    obtain ⟨k0, v0⟩ := kv
    by_cases h0 : k0 = k
    · subst h0
      simp [removeKey, lookupKey, h]
    · by_cases h2 : k0 = k2
      · subst h2
        simp [removeKey, lookupKey, h0, ih]
      · simp [removeKey, lookupKey, h0, h2, ih]

/-- C1: on a 404 response, `_send_request` raises `NotFoundError` iff
the action is one of patch/merge/delete/get and no default was supplied
(the `NA` sentinel); with a supplied default (including `None`) that
default is returned; for every other action a 404 becomes the transport
status error, never `NotFoundError`. -/
theorem claim1_404_dispatch (action : String) (default : Option PyValue) :
    (handle404 404 action default = .notFoundErr ↔
      (action ∈ ["patch", "merge", "delete", "get"] ∧ default = none)) ∧
    (∀ v, action ∈ ["patch", "merge", "delete", "get"] →
      handle404 404 action (some v) = .returned v) ∧
    (action ∉ ["patch", "merge", "delete", "get"] →
      handle404 404 action default = .statusErr 404) := by
  by_cases hm : action ∈ ["patch", "merge", "delete", "get"]
  · refine ⟨?_, ?_, ?_⟩
    · cases default <;> simp [handle404, hm]
    · intro v _
      simp [handle404, hm]
    · intro hnot
      exact absurd hm hnot
  · refine ⟨?_, ?_, ?_⟩
    · cases default <;> simp [handle404, hm]
    · intro v hv
      exact absurd hv hm
    · intro _
      simp [handle404, hm]

theorem claim1_404_dispatch_witness :
    ("get" ∈ ["patch", "merge", "delete", "get"] ∧
      handle404 404 "get" (some .vNone) = .returned .vNone) ∧
    ("post" ∉ ["patch", "merge", "delete", "get"] ∧
      handle404 404 "post" none = .statusErr 404) :=
  ⟨⟨by simp, (claim1_404_dispatch "get" (some .vNone)).2.1 .vNone (by simp)⟩,
   ⟨by simp, (claim1_404_dispatch "post" none).2.2 (by simp)⟩⟩

/-- C5: with stored prefix for "default", `search` on single index
"myindex", no id or nodename, and host override "localhost:8880", the
built URL is exactly `http://localhost:8880/default/myindex/:search`;
and the `:action` command suffix is appended exactly for the actions
`search` and `stats`, every other action producing the suffix-free URL.
-/
theorem claim5_build_url (sh sp pfx action : String) (index : List String)
    (h0 p0 nd id : String) :
    (buildUrl (storedPfx "default") "127.0.0.1" "8880" "search" ["myindex"]
        "localhost:8880" "" "" "" =
      "http://localhost:8880/default/myindex/:search") ∧
    ((action = "search" ∨ action = "stats") →
      buildUrl pfx sh sp action index h0 p0 nd id =
        buildUrl pfx sh sp "get" index h0 p0 nd id ++ ":" ++ action) ∧
    (action ≠ "search" → action ≠ "stats" →
      buildUrl pfx sh sp action index h0 p0 nd id =
        buildUrl pfx sh sp "get" index h0 p0 nd id) := by
  refine ⟨by decide, ?_, ?_⟩
  · intro hq
    simp only [buildUrl, if_pos hq]
    have hget : ¬ (("get" : String) = "search" ∨ ("get" : String) = "stats") := by
      decide
    rw [if_neg hget]
    simp [String.append_assoc]
  · intro h1 h2
    have hq : ¬ (action = "search" ∨ action = "stats") := by
      rintro (h | h)
      · exact h1 h
      · exact h2 h
    simp only [buildUrl, if_neg hq]
    have hget : ¬ (("get" : String) = "search" ∨ ("get" : String) = "stats") := by
      decide
    rw [if_neg hget]

theorem claim5_build_url_witness :
    (("search" : String) = "search" ∨ ("search" : String) = "stats") ∧
    buildUrl (storedPfx "default") "127.0.0.1" "8880" "search" ["myindex"]
        "localhost:8880" "" "" "" =
      buildUrl (storedPfx "default") "127.0.0.1" "8880" "get" ["myindex"]
        "localhost:8880" "" "" "" ++ ":" ++ "search" :=
  ⟨Or.inl rfl,
    (claim5_build_url "127.0.0.1" "8880" (storedPfx "default") "search"
      ["myindex"] "localhost:8880" "" "" "").2.1 (Or.inl rfl)⟩

/-- C7: in `search`, a non-None offset that fails integer parsing (such
as "bogus") is sent as offset=0, a numeric string such as "50" is sent
as its value, and a parsed value exceeding the 100000 ceiling (such as
200001) is sent as offset=0. -/
theorem claim7_search_offset (s : String) (n : Int) :
    (pyIntOfStr s = none → searchOffset (.str s) = 0) ∧
    (100000 < n → searchOffset (.int n) = 0) ∧
    searchOffset (.str "50") = 50 ∧
    searchOffset (.str "bogus") = 0 ∧
    searchOffset (.int 200001) = 0 := by
  refine ⟨?_, ?_, by decide, by decide, by decide⟩
  · intro h
    simp [searchOffset, pyIntOfOffset, h]
  · intro h
    simp only [searchOffset, pyIntOfOffset]
    rw [if_pos h]

theorem claim7_search_offset_witness :
    (pyIntOfStr "bogus" = none ∧ searchOffset (.str "bogus") = 0) ∧
    ((100000 : Int) < 200001 ∧ searchOffset (.int 200001) = 0) :=
  ⟨⟨by decide, (claim7_search_offset "bogus" 200001).1 (by decide)⟩,
   ⟨by decide, (claim7_search_offset "bogus" 200001).2.1 (by decide)⟩⟩

/-- C8: a dict body whose `_schema` value is a string s serializes with
`_schema` rewritten to the stored client prefix followed by s stripped
of leading and trailing slashes, and every other key of the body
unchanged. -/
theorem claim8_schema_rewrite (body : Alist) (s p : String)
    (h : lookupKey body "_schema" = some (.vStr s)) :
    rewriteSchema (storedPfx p) body =
      .ok (setKey body "_schema" (.vStr (storedPfx p ++ stripSlashes s))) ∧
    lookupKey (setKey body "_schema" (.vStr (storedPfx p ++ stripSlashes s)))
        "_schema" = some (.vStr (storedPfx p ++ stripSlashes s)) ∧
    (∀ k, k ≠ "_schema" →
      lookupKey (setKey body "_schema" (.vStr (storedPfx p ++ stripSlashes s)))
          k = lookupKey body k) := by
  refine ⟨?_, lookupKey_setKey_self body "_schema" _, ?_⟩
  · simp [rewriteSchema, h]
  · intro k hk
    exact lookupKey_setKey_ne body "_schema" k _ (fun he => hk he.symm)

theorem claim8_schema_rewrite_witness :
    lookupKey [("_schema", PyValue.vStr "/foo"), ("data", PyValue.vInt 1)]
        "_schema" = some (.vStr "/foo") ∧
    storedPfx "pre" ++ stripSlashes "/foo" = "pre/foo" ∧
    rewriteSchema (storedPfx "pre")
        [("_schema", PyValue.vStr "/foo"), ("data", PyValue.vInt 1)] =
      .ok (setKey [("_schema", PyValue.vStr "/foo"), ("data", PyValue.vInt 1)]
        "_schema" (.vStr (storedPfx "pre" ++ stripSlashes "/foo"))) :=
  ⟨rfl, by decide,
    (claim8_schema_rewrite
      [("_schema", PyValue.vStr "/foo"), ("data", PyValue.vInt 1)]
      "/foo" "pre" rfl).1⟩

/-- C6: a successful response decoding to
`{"#query": {"#hits": h, "#total_count": c, "#matches_estimated": m},
"#aggregations": a}` with non-empty query envelope and non-empty
aggregations normalizes to
`{"hits": h, "count": c, "total": m, "aggregations": a}`. -/
theorem claim6_normalization (h c m : PyValue) (ag : Alist) (hag : ag ≠ []) :
    normalizeResponse
        [("#query", .vDict [("#hits", h), ("#total_count", c),
            ("#matches_estimated", m)]),
         ("#aggregations", .vDict ag)] =
      .ok (.vDict [("hits", h), ("count", c), ("total", m),
        ("aggregations", .vDict ag)]) := by
  match ag, hag with
  | a0 :: atl, _ =>
    simp [normalizeResponse, lookupKey, removeKey, setKey, truthy]

theorem claim6_normalization_witness :
    ([(("x" : String), PyValue.vInt 2)] ≠ ([] : Alist)) ∧
    normalizeResponse
        [("#query", .vDict [("#hits", PyValue.vInt 1),
            ("#total_count", PyValue.vInt 100),
            ("#matches_estimated", PyValue.vInt 150)]),
         ("#aggregations", .vDict [("x", PyValue.vInt 2)])] =
      .ok (.vDict [("hits", PyValue.vInt 1), ("count", PyValue.vInt 100),
        ("total", PyValue.vInt 150),
        ("aggregations", .vDict [("x", PyValue.vInt 2)])]) :=
  ⟨by simp,
    claim6_normalization (.vInt 1) (.vInt 100) (.vInt 150)
      [("x", PyValue.vInt 2)] (by simp)⟩

/-- C10 (implicit): when a successful response decodes to content with a
non-empty `#query` envelope lacking any of `#hits`, `#total_count`,
`#matches_estimated`, the normalization raises `KeyError` instead of
returning a result. -/
theorem claim10_normalize_keyerror (q rest : Alist) (hq : q ≠ [])
    (hmiss : lookupKey q "#hits" = none ∨ lookupKey q "#total_count" = none ∨
      lookupKey q "#matches_estimated" = none) :
    ∃ k, normalizeResponse (("#query", .vDict q) :: rest) =
      .error (.keyError k) := by
  have htr : truthy (.vDict q) = true := by
    match q, hq with
    | _ :: _, _ => simp [truthy]
  rcases hmiss with hm | hm | hm
  · exact ⟨"#hits", by simp [normalizeResponse, lookupKey, removeKey, htr, hm]⟩
  · cases hh : lookupKey q "#hits" with
    | none =>
      exact ⟨"#hits", by simp [normalizeResponse, lookupKey, removeKey, htr, hh]⟩
    | some hv =>
      have e2 : lookupKey (setKey (removeKey q "#hits") "hits" hv)
          "#total_count" = lookupKey q "#total_count" := by
        rw [lookupKey_setKey_ne _ _ _ _ (by decide),
          lookupKey_removeKey_ne _ _ _ (by decide)]
      exact ⟨"#total_count",
        by simp [normalizeResponse, lookupKey, removeKey, htr, hh, e2, hm]⟩
  · cases hh : lookupKey q "#hits" with
    | none =>
      exact ⟨"#hits", by simp [normalizeResponse, lookupKey, removeKey, htr, hh]⟩
    | some hv =>
      have e2 : lookupKey (setKey (removeKey q "#hits") "hits" hv)
          "#total_count" = lookupKey q "#total_count" := by
        rw [lookupKey_setKey_ne _ _ _ _ (by decide),
          lookupKey_removeKey_ne _ _ _ (by decide)]
      cases hc : lookupKey q "#total_count" with
      | none =>
        exact ⟨"#total_count",
          by simp [normalizeResponse, lookupKey, removeKey, htr, hh, e2, hc]⟩
      | some cv =>
        have e3 : lookupKey (setKey (removeKey
            (setKey (removeKey q "#hits") "hits" hv) "#total_count")
            "count" cv) "#matches_estimated" = lookupKey q "#matches_estimated" := by
          rw [lookupKey_setKey_ne _ _ _ _ (by decide),
            lookupKey_removeKey_ne _ _ _ (by decide),
            lookupKey_setKey_ne _ _ _ _ (by decide),
            lookupKey_removeKey_ne _ _ _ (by decide)]
        exact ⟨"#matches_estimated",
          by simp [normalizeResponse, lookupKey, removeKey, htr, hh, e2, hc, e3,
            hm]⟩

theorem claim10_normalize_keyerror_witness :
    ([(("#hits" : String), PyValue.vInt 1)] ≠ ([] : Alist)) ∧
    ∃ k, normalizeResponse
        [("#query", .vDict [("#hits", PyValue.vInt 1)])] =
      .error (.keyError k) :=
  ⟨by simp,
    claim10_normalize_keyerror [("#hits", PyValue.vInt 1)] [] (by simp)
      (Or.inr (Or.inl rfl))⟩

/-- Modelled from the spec: leap-year rule for the calendar validity
check of the date codec (the codec itself lives in the external
`dfw.core.utils` package, absent from the sources). -/
def isLeap (y : Nat) : Bool :=
  y % 4 = 0 && (y % 100 != 0 || y % 400 = 0)

/-- Modelled from the spec: days in a month of the proleptic Gregorian
calendar used by the date codec. -/
def daysInMonth (y m : Nat) : Nat :=
  if m = 2 then (if isLeap y then 29 else 28)
  else if m = 4 ∨ m = 6 ∨ m = 9 ∨ m = 11 then 30
  else 31

/-- A valid calendar date with a four-digit year, as representable by
the codec's `YYYY-MM-DD` form. -/
def ValidDate (y m d : Nat) : Prop :=
  1 ≤ y ∧ y ≤ 9999 ∧ 1 ≤ m ∧ m ≤ 12 ∧ 1 ≤ d ∧ d ≤ daysInMonth y m

instance (y m d : Nat) : Decidable (ValidDate y m d) := by
  unfold ValidDate
  infer_instance

/-- A valid time-zone offset in minutes: strictly less than 24 hours in
magnitude, so it prints as `±HH:MM` with a two-digit hour. -/
def ValidTz : Option Int → Prop
  | none => True
  | some t => t.natAbs ≤ 1439

instance (tz : Option Int) : Decidable (ValidTz tz) := by
  unfold ValidTz
  match tz with
  | none => infer_instance
  | some t => infer_instance

/-- A valid time of day with microsecond precision. -/
def ValidTime (h mi s us : Nat) (tz : Option Int) : Prop :=
  h < 24 ∧ mi < 60 ∧ s < 60 ∧ us < 1000000 ∧ ValidTz tz

instance (h mi s us : Nat) (tz : Option Int) : Decidable (ValidTime h mi s us tz) := by
  unfold ValidTime
  infer_instance

/-- The ASCII digit character for a value below ten. -/
def dchar (d : Nat) : Char :=
  Char.ofNat (48 + d)

/-- Modelled from the spec: the `YYYY-MM-DD` serialization of a date
value. -/
def dateChars (y m d : Nat) : List Char :=
  [dchar (y / 1000), dchar (y / 100 % 10), dchar (y / 10 % 10), dchar (y % 10),
   '-', dchar (m / 10), dchar (m % 10),
   '-', dchar (d / 10), dchar (d % 10)]

/-- Modelled from the spec: the optional fractional-second part of a
serialized time, six digits after a dot when the microseconds are
non-zero. -/
def fracChars (us : Nat) : List Char :=
  if us = 0 then []
  else '.' :: [dchar (us / 100000), dchar (us / 10000 % 10),
    dchar (us / 1000 % 10), dchar (us / 100 % 10), dchar (us / 10 % 10),
    dchar (us % 10)]

/-- Modelled from the spec: the optional `±HH:MM` time-zone suffix of a
serialized time. -/
def tzChars : Option Int → List Char
  | none => []
  | some t =>
    (if t < 0 then '-' else '+') ::
      (dchar (t.natAbs / 60 / 10) :: dchar (t.natAbs / 60 % 10) ::
        ':' :: dchar (t.natAbs % 60 / 10) :: [dchar (t.natAbs % 60 % 10)])

/-- Modelled from the spec: the `HH:MM:SS[.ffffff][±HH:MM]`
serialization of a time-of-day value. -/
def timeChars (h mi s us : Nat) (tz : Option Int) : List Char :=
  dchar (h / 10) :: dchar (h % 10) :: ':' ::
    dchar (mi / 10) :: dchar (mi % 10) :: ':' ::
    dchar (s / 10) :: dchar (s % 10) :: (fracChars us ++ tzChars tz)

/-- Modelled from the spec: the ISO-8601 combined serialization of a
date-time value with a `T` separator. -/
def dtChars (y mo d h mi s us : Nat) (tz : Option Int) : List Char :=
  dateChars y mo d ++ 'T' :: timeChars h mi s us tz

/-- Two-digit decimal number parse. -/
def num2 (a b : Char) : Option Nat :=
  if isDigitCh a && isDigitCh b then some (10 * dval a + dval b) else none

/-- Four-digit decimal number parse. -/
def num4 (a b c d : Char) : Option Nat :=
  if isDigitCh a && isDigitCh b && isDigitCh c && isDigitCh d then
    some (1000 * dval a + 100 * dval b + 10 * dval c + dval d)
  else none

/-- Modelled from the spec: exact full-string match of the `YYYY-MM-DD`
pattern; only a valid calendar date decodes, everything else passes
through. -/
def parseDate (cs : List Char) : Option (Nat × Nat × Nat) :=
  match cs with
  | [y1, y2, y3, y4, s1, m1, m2, s2, d1, d2] =>
    if s1 = '-' ∧ s2 = '-' then
      match num4 y1 y2 y3 y4, num2 m1 m2, num2 d1 d2 with
      | some y, some m, some d =>
        if ValidDate y m d then some (y, m, d) else none
      | _, _, _ => none
    else none
  | _ => none

/-- Modelled from the spec: optional fractional seconds after the
`HH:MM:SS` core — a dot followed by one to six digits, scaled to
microseconds. Returns the microseconds and the unconsumed remainder. -/
def parseFrac : List Char → Option (Nat × List Char)
  | '.' :: rest =>
    let ds := rest.takeWhile isDigitCh
    if ds.length = 0 ∨ 6 < ds.length then none
    else some (digitsVal ds * 10 ^ (6 - ds.length), rest.dropWhile isDigitCh)
  | rest => some (0, rest)

/-- Modelled from the spec: optional trailing time zone — nothing, `Z`,
or `±HH:MM`. `none` means the whole string fails the time pattern. -/
def parseTz : List Char → Option (Option Int)
  | [] => some none
  | ['Z'] => some (some 0)
  | [sg, a, b, col, c, d] =>
    if (sg = '+' ∨ sg = '-') ∧ col = ':' then
      match num2 a b, num2 c d with
      | some hh, some mm =>
        if hh < 24 ∧ mm < 60 then
          some (some ((if sg = '-' then (-1 : Int) else 1) * (60 * hh + mm)))
        else none
      | _, _ => none
    else none
  | _ => none

/-- Modelled from the spec: exact full-string match of the time-of-day
pattern `HH:MM:SS` with optional fractional seconds and time zone. -/
def parseTime (cs : List Char) :
    Option (Nat × Nat × Nat × Nat × Option Int) :=
  match cs with
  | h1 :: h2 :: c1 :: m1 :: m2 :: c2 :: s1 :: s2 :: rest =>
    if c1 = ':' ∧ c2 = ':' then
      match num2 h1 h2, num2 m1 m2, num2 s1 s2 with
      | some h, some mi, some s =>
        match parseFrac rest with
        | some (us, rest2) =>
          match parseTz rest2 with
          | some tz =>
            if h < 24 ∧ mi < 60 ∧ s < 60 then some (h, mi, s, us, tz) else none
          | none => none
        | none => none
      | _, _, _ => none
    else none
  | _ => none

/-- Modelled from the spec: exact full-string match of the combined
date-time pattern, `T` or single-space separator, only valid calendar
dates. -/
def parseDateTime (cs : List Char) :
    Option (Nat × Nat × Nat × Nat × Nat × Nat × Nat × Option Int) :=
  match cs with
  | y1 :: y2 :: y3 :: y4 :: s1 :: m1 :: m2 :: s2 :: d1 :: d2 :: sep :: rest =>
    if s1 = '-' ∧ s2 = '-' ∧ (sep = 'T' ∨ sep = ' ') then
      match num4 y1 y2 y3 y4, num2 m1 m2, num2 d1 d2 with
      | some y, some mo, some d =>
        if ValidDate y mo d then
          match parseTime rest with
          | some (h, mi, s, us, tz) => some (y, mo, d, h, mi, s, us, tz)
          | none => none
        else none
      | _, _, _ => none
    else none
  | _ => none

/-- Modelled from the spec: inbound decoding of a string — try the
time, date and date-time shapes (mutually exclusive full-string
patterns); a string matching none passes through unchanged. -/
def decodeStr (s : String) : PyValue :=
  match parseTime s.data with
  | some (h, mi, s2, us, tz) => .vTime h mi s2 us tz
  | none =>
    match parseDate s.data with
    | some (y, m, d) => .vDate y m d
    | none =>
      match parseDateTime s.data with
      | some (y, mo, d, h, mi, s2, us, tz) => .vDateTime y mo d h mi s2 us tz
      | none => .vStr s

/-- Modelled from the spec: the serialization pass of the Scalar Codec
applied by `_send_request` to request bodies — decimals become the
equal floating-point number, dates/times/datetimes become their ISO
strings, containers are traversed recursively, everything else passes
through. -/
def encodeValue : PyValue → PyValue
  | .vDecimal q => .vFloat q
  | .vDate y m d => .vStr ⟨dateChars y m d⟩
  | .vTime h mi s us tz => .vStr ⟨timeChars h mi s us tz⟩
  | .vDateTime y mo d h mi s us tz => .vStr ⟨dtChars y mo d h mi s us tz⟩
  | .vList xs => .vList (xs.attach.map fun x => encodeValue x.1)
  | .vDict xs => .vDict (xs.attach.map fun kv => (kv.1.1, encodeValue kv.1.2))
  | v => v
decreasing_by
  · have h := List.sizeOf_lt_of_mem x.2
    simp only [PyValue.vList.sizeOf_spec]
    omega
  · have h := List.sizeOf_lt_of_mem kv.2
    obtain ⟨⟨k, v⟩, hm⟩ := kv
    simp only [Prod.mk.sizeOf_spec, PyValue.vDict.sizeOf_spec] at h ⊢
    omega

/-- Modelled from the spec: the deserialization pass of the Scalar
Codec applied by `_send_request` to response payloads — floats are
promoted to decimals, strings are pattern-matched into date/time/
datetime values, containers are traversed recursively, everything else
passes through. -/
def decodeValue : PyValue → PyValue
  | .vFloat q => .vDecimal q
  | .vStr s => decodeStr s
  | .vList xs => .vList (xs.attach.map fun x => decodeValue x.1)
  | .vDict xs => .vDict (xs.attach.map fun kv => (kv.1.1, decodeValue kv.1.2))
  | v => v
decreasing_by
  · have h := List.sizeOf_lt_of_mem x.2
    simp only [PyValue.vList.sizeOf_spec]
    omega
  · have h := List.sizeOf_lt_of_mem kv.2
    obtain ⟨⟨k, v⟩, hm⟩ := kv
    simp only [Prod.mk.sizeOf_spec, PyValue.vDict.sizeOf_spec] at h ⊢
    omega

/-- The scalar values the codec can represent on the wire: decimals,
valid dates, valid times and valid date-times. -/
def RepresentableScalar : PyValue → Prop
  | .vDecimal _ => True
  | .vDate y m d => ValidDate y m d
  | .vTime h mi s us tz => ValidTime h mi s us tz
  | .vDateTime y mo d h mi s us tz => ValidDate y mo d ∧ ValidTime h mi s us tz
  | _ => False

lemma dchar_toNat {d : Nat} (h : d < 10) : (dchar d).toNat = 48 + d := by
  interval_cases d <;> rfl

lemma isDigitCh_dchar {d : Nat} (h : d < 10) : isDigitCh (dchar d) = true := by
  interval_cases d <;> decide

lemma dval_dchar {d : Nat} (h : d < 10) : dval (dchar d) = d := by
  simp [dval, dchar_toNat h]

lemma dchar_ne_colon {d : Nat} (h : d < 10) : dchar d ≠ ':' := by
  interval_cases d <;> decide

lemma num2_pad {n : Nat} (h : n < 100) :
    num2 (dchar (n / 10)) (dchar (n % 10)) = some n := by
  have h1 : n / 10 < 10 := by omega
  have h2 : n % 10 < 10 := by omega
  simp [num2, isDigitCh_dchar h1, isDigitCh_dchar h2, dval_dchar h1,
    dval_dchar h2]
  omega

lemma num4_pad {n : Nat} (h : n < 10000) :
    num4 (dchar (n / 1000)) (dchar (n / 100 % 10)) (dchar (n / 10 % 10))
      (dchar (n % 10)) = some n := by
  have h1 : n / 1000 < 10 := by omega
  have h2 : n / 100 % 10 < 10 := by omega
  have h3 : n / 10 % 10 < 10 := by omega
  have h4 : n % 10 < 10 := by omega
  simp [num4, isDigitCh_dchar h1, isDigitCh_dchar h2, isDigitCh_dchar h3,
    isDigitCh_dchar h4, dval_dchar h1, dval_dchar h2, dval_dchar h3,
    dval_dchar h4]
  omega

lemma digitsVal_pad6 {us : Nat} (h : us < 1000000) :
    digitsVal [dchar (us / 100000), dchar (us / 10000 % 10),
      dchar (us / 1000 % 10), dchar (us / 100 % 10), dchar (us / 10 % 10),
      dchar (us % 10)] = us := by
  have h1 : us / 100000 < 10 := by omega
  have h2 : us / 10000 % 10 < 10 := by omega
  have h3 : us / 1000 % 10 < 10 := by omega
  have h4 : us / 100 % 10 < 10 := by omega
  have h5 : us / 10 % 10 < 10 := by omega
  have h6 : us % 10 < 10 := by omega
  simp [digitsVal, dval_dchar h1, dval_dchar h2, dval_dchar h3, dval_dchar h4,
    dval_dchar h5, dval_dchar h6]
  omega

lemma daysInMonth_le (y m : Nat) : daysInMonth y m ≤ 31 := by
  unfold daysInMonth
  split
  · split <;> omega
  · split <;> omega

lemma takeWhile_append_of_all {p : Char → Bool} (ds rest : List Char)
    (h : ∀ c ∈ ds, p c = true) :
    (ds ++ rest).takeWhile p = ds ++ rest.takeWhile p := by
  induction ds with
  | nil => simp
  | cons c cs ih =>
    have hc : p c = true := h c (by simp)
    simp [hc, ih (fun x hx => h x (by simp [hx]))]

lemma dropWhile_append_of_all {p : Char → Bool} (ds rest : List Char)
    (h : ∀ c ∈ ds, p c = true) :
    (ds ++ rest).dropWhile p = rest.dropWhile p := by
  induction ds with
  | nil => simp
  | cons c cs ih =>
    have hc : p c = true := h c (by simp)
    simp [hc, ih (fun x hx => h x (by simp [hx]))]

lemma parseDate_dateChars {y m d : Nat} (h : ValidDate y m d) :
    parseDate (dateChars y m d) = some (y, m, d) := by
  obtain ⟨h1, h2, h3, h4, h5, h6⟩ := h
  have hdm := daysInMonth_le y m
  have hy : y < 10000 := by omega
  have hm : m < 100 := by omega
  have hd : d < 100 := by omega
  have hv : ValidDate y m d := ⟨h1, h2, h3, h4, h5, h6⟩
  simp only [dateChars, parseDate, num4_pad hy, num2_pad hm, num2_pad hd]
  rw [if_pos (⟨trivial, trivial⟩ : True ∧ True), if_pos hv]

lemma takeWhile_tzChars (tz : Option Int) :
    (tzChars tz).takeWhile isDigitCh = [] := by
  match tz with
  | none => rfl
  | some t =>
    simp only [tzChars]
    by_cases ht : t < 0
    · rw [if_pos ht]
      rfl
    · rw [if_neg ht]
      rfl

lemma dropWhile_tzChars (tz : Option Int) :
    (tzChars tz).dropWhile isDigitCh = tzChars tz := by
  match tz with
  | none => rfl
  | some t =>
    simp only [tzChars]
    by_cases ht : t < 0
    · rw [if_pos ht]
      rfl
    · rw [if_neg ht]
      rfl

lemma parseFrac_fracChars {us : Nat} (tz : Option Int) (h : us < 1000000) :
    parseFrac (fracChars us ++ tzChars tz) = some (us, tzChars tz) := by
  by_cases h0 : us = 0
  · subst h0
    simp only [fracChars, if_pos rfl, List.nil_append]
    match tz with
    | none => rfl
    | some t =>
      simp only [tzChars]
      by_cases ht : t < 0
      · rw [if_pos ht]
        rfl
      · rw [if_neg ht]
        rfl
  · have hds : ∀ c ∈ [dchar (us / 100000), dchar (us / 10000 % 10),
        dchar (us / 1000 % 10), dchar (us / 100 % 10), dchar (us / 10 % 10),
        dchar (us % 10)], isDigitCh c = true := by
      intro c hc
      simp only [List.mem_cons, List.not_mem_nil, or_false] at hc
      rcases hc with rfl | rfl | rfl | rfl | rfl | rfl
      · exact isDigitCh_dchar (by omega)
      · exact isDigitCh_dchar (by omega)
      · exact isDigitCh_dchar (by omega)
      · exact isDigitCh_dchar (by omega)
      · exact isDigitCh_dchar (by omega)
      · exact isDigitCh_dchar (by omega)
    simp only [fracChars, if_neg h0]
    rw [List.cons_append]
    simp only [parseFrac]
    rw [takeWhile_append_of_all _ _ hds, dropWhile_append_of_all _ _ hds,
      takeWhile_tzChars, dropWhile_tzChars]
    simp [digitsVal_pad6 h]

lemma parseTz_tzChars {tz : Option Int} (h : ValidTz tz) :
    parseTz (tzChars tz) = some tz := by
  match tz with
  | none => rfl
  | some t =>
    have hna : t.natAbs ≤ 1439 := h
    have hh : t.natAbs / 60 < 100 := by omega
    have hm : t.natAbs % 60 < 100 := by omega
    have hlt : t.natAbs / 60 < 24 ∧ t.natAbs % 60 < 60 := by omega
    simp only [tzChars]
    by_cases ht : t < 0
    · rw [if_pos ht]
      simp only [parseTz, num2_pad hh, num2_pad hm, or_true, true_or, and_true,
        true_and, if_true, if_pos hlt, Option.some.injEq]
      omega
    · rw [if_neg ht]
      simp only [parseTz, num2_pad hh, num2_pad hm, or_true, true_or, and_true,
        true_and, if_true, if_pos hlt, Option.some.injEq]
      rw [if_neg (by decide : ¬ ('+' : Char) = '-')]
      omega

lemma parseTime_timeChars {h mi s us : Nat} {tz : Option Int}
    (hv : ValidTime h mi s us tz) :
    parseTime (timeChars h mi s us tz) = some (h, mi, s, us, tz) := by
  obtain ⟨h1, h2, h3, h4, h5⟩ := hv
  have hh : h < 100 := by omega
  have hmi : mi < 100 := by omega
  have hs : s < 100 := by omega
  simp only [timeChars, parseTime, num2_pad hh, num2_pad hmi, num2_pad hs,
    parseFrac_fracChars tz h4, parseTz_tzChars h5]
  simp [h1, h2, h3]

lemma parseDateTime_dtChars {y mo d h mi s us : Nat} {tz : Option Int}
    (hd : ValidDate y mo d) (ht : ValidTime h mi s us tz) :
    parseDateTime (dtChars y mo d h mi s us tz) =
      some (y, mo, d, h, mi, s, us, tz) := by
  obtain ⟨d1, d2, d3, d4, d5, d6⟩ := hd
  have hdm := daysInMonth_le y mo
  have hy : y < 10000 := by omega
  have hmo : mo < 100 := by omega
  have hdd : d < 100 := by omega
  have hvd : ValidDate y mo d := ⟨d1, d2, d3, d4, d5, d6⟩
  simp only [dtChars, dateChars, List.cons_append, List.nil_append,
    parseDateTime, num4_pad hy, num2_pad hmo, num2_pad hdd,
    parseTime_timeChars ht]
  simp [hvd]

lemma parseTime_dateChars (y m d : Nat) :
    parseTime (dateChars y m d) = none := by
  have hne : dchar (y / 10 % 10) ≠ ':' := dchar_ne_colon (by omega)
  simp [dateChars, parseTime, hne]

lemma parseTime_dtChars (y mo d h mi s us : Nat) (tz : Option Int) :
    parseTime (dtChars y mo d h mi s us tz) = none := by
  have hne : dchar (y / 10 % 10) ≠ ':' := dchar_ne_colon (by omega)
  simp [dtChars, dateChars, parseTime, hne]

lemma parseDate_dtChars (y mo d h mi s us : Nat) (tz : Option Int) :
    parseDate (dtChars y mo d h mi s us tz) = none := by
  rfl

/-- C2: for every representable fixed-point decimal, date, time-of-day
and date-time value, the deserialization pass applied to the result of
the serialization pass returns the value itself:
`decode(encode(v)) = v`. The codec is modelled from the spec (it lives
in the external `dfw.core.utils` package); the spec states that a
decimal encodes as a floating-point number equal to its value, so the
wire float is modelled as that exact rational. -/
theorem claim2_codec_roundtrip (v : PyValue) (h : RepresentableScalar v) :
    decodeValue (encodeValue v) = v := by
  match v, h with
  | .vDecimal q, _ => simp only [encodeValue, decodeValue]
  | .vDate y m d, hv =>
    have hv2 : ValidDate y m d := hv
    simp only [encodeValue, decodeValue, decodeStr, parseTime_dateChars,
      parseDate_dateChars hv2]
  | .vTime h2 mi s us tz, hv =>
    have hv2 : ValidTime h2 mi s us tz := hv
    simp only [encodeValue, decodeValue, decodeStr, parseTime_timeChars hv2]
  | .vDateTime y mo d h2 mi s us tz, hv =>
    have hvd : ValidDate y mo d := hv.1
    have hvt : ValidTime h2 mi s us tz := hv.2
    simp only [encodeValue, decodeValue, decodeStr, parseTime_dtChars,
      parseDate_dtChars, parseDateTime_dtChars hvd hvt]

theorem claim2_codec_roundtrip_witness :
    RepresentableScalar (PyValue.vDate 2025 6 15) ∧
    decodeValue (encodeValue (PyValue.vDate 2025 6 15)) =
      PyValue.vDate 2025 6 15 :=
  ⟨show ValidDate 2025 6 15 by decide,
    claim2_codec_roundtrip (PyValue.vDate 2025 6 15)
      (show ValidDate 2025 6 15 by decide)⟩
